import Mathlib

/-!
Shallow embedding of `tvb/datatypes/time_series_framework.py` (framework
methods for the TimeSeries datatypes), together with theorems settling the
specification claims about the paged slicing and selection engine.

Modelling conventions:
* numeric array values are rationals (the source computes with Python/numpy
  floats; the arithmetic content of the claims is exact, so `ℚ` is used);
* an n-dimensional numpy array is a `shape : List ℕ` plus a total map from
  multi-indices to values; only indices bounded by the shape are meaningful;
* fallible Python paths (raised exceptions) become `Option`/`Except`;
* the external backing store (`get_data_shape` / `get_data`) is passed in
  explicitly: the shape as a `List ℕ` (or an `Except` of it where a read
  failure matters) and the raw values as the index map.
-/

/-- Errors raised by the framework code: `ValidationException` carrying the
offending indices, the re-raised `TVBException ("Invalid empty TimeSeries!")`,
a numpy `IndexError` from out-of-range integer indexing, and the Python
`ValueError` raised by `max()`/`min()` on an empty sequence. -/
inductive TSErr where
  | validation (indices : List ℤ)
  | invalidTimeSeries
  | indexError
  | valueError
deriving DecidableEq, Repr

/-- True exactly on `ValidationException` values. -/
def TSErr.isValidation : TSErr → Bool
  | .validation _ => true
  | _ => false

/-- Whether an operation's outcome is a raised `ValidationException`. -/
def isValidationResult {α : Type} : Except TSErr α → Bool
  | .error e => e.isValidation
  | .ok _ => false

/-- A numpy ndarray: its shape and its values, addressed by multi-index. -/
structure NDArray where
  shape : List ℕ
  data : List ℕ → ℚ

/-- One per-axis Python `slice(start, stop, step)` with nonnegative bounds
(the bounds the source builds are nonnegative on every path we model). -/
structure Slc where
  start : ℕ
  stop : ℕ
  step : ℕ
deriving DecidableEq, Repr

/-- Number of indices selected by `slice(start, stop, step)` (positive step)
on an axis of length `L`: Python clamps the stop to the axis extent and an
empty range when `start ≥ stop` truncates to zero. -/
def slcLen (s : Slc) (L : ℕ) : ℕ :=
  (min s.stop L - s.start + (s.step - 1)) / s.step

/-- Apply one `slice` object per axis to an array (`arr[s0, s1, ...]`):
axis `i` keeps `slcLen` positions and position `k` maps back to
`start + k * step` on the original axis. -/
def applySlices (a : NDArray) (ss : List Slc) : NDArray :=
  ⟨List.zipWith slcLen ss a.shape,
   fun idx => a.data (List.zipWith (fun s k => s.start + k * s.step) ss idx)⟩

/-- The slice the `read_data_page` loop builds for axis `i` of extent `L`:
axis 0 gets `slice(from_idx, min(to_idx, shape[0]), step)`, axis 2 gets
`slice(shape[2])`, every other axis gets `slice(0, 1)` without
`specific_slices` and `slice(s_i, min(s_i + 1, shape[i]), 1)` with them. -/
def sliceFor (from_idx to_idx step : ℕ) (specific : Option (List ℕ)) (i L : ℕ) : Slc :=
  if i = 0 then ⟨from_idx, min to_idx L, step⟩
  else if i = 2 then ⟨0, L, 1⟩
  else
    match specific with
    | none => ⟨0, 1, 1⟩
    | some sl => ⟨sl.getD i 0, min (sl.getD i 0 + 1) L, 1⟩

/-- The `for i in xrange(len(overall_shape))` loop of `read_data_page`,
carrying the running axis index `i`. -/
def buildSlicesAux (from_idx to_idx step : ℕ) (specific : Option (List ℕ)) :
    ℕ → List ℕ → List Slc
  | _, [] => []
  | i, L :: Ls =>
    sliceFor from_idx to_idx step specific i L ::
      buildSlicesAux from_idx to_idx step specific (i + 1) Ls

/-- All slices built by `read_data_page` for a backing shape. -/
def buildSlices (from_idx to_idx step : ℕ) (specific : Option (List ℕ))
    (shape : List ℕ) : List Slc :=
  buildSlicesAux from_idx to_idx step specific 0 shape

/-- Map an index into the squeezed array back to an index into the original
array: squeezed-away (length-1) axes get index 0. -/
def expandIdx : List ℕ → List ℕ → List ℕ
  | [], _ => []
  | L :: Ls, idx =>
    if L = 1 then 0 :: expandIdx Ls idx
    else idx.headD 0 :: expandIdx Ls (idx.drop 1)

/-- numpy `ndarray.squeeze()`: remove every axis of length exactly 1. -/
def NDArray.squeeze (a : NDArray) : NDArray :=
  ⟨a.shape.filter (· != 1), fun idx => a.data (expandIdx a.shape idx)⟩

/-- `TimeSeriesFramework.read_data_page`.  Mirrors the source: build one slice
per axis of the backing shape, read the hyper-slice, then post-process — when
the time axis of the page has length 1 (`len(data) == 1`) squeeze and reshape
to `(1, len(squeezed))`, otherwise just squeeze.  `none` models the raised
exceptions of that reshape path: `len()` of the 0-d array obtained by
squeezing an all-length-1 page raises `TypeError`, and a `reshape((1, n))`
whose element count does not match raises `ValueError`.  (The reshaped data
map reindexes by dropping the leading 0; for the degenerate zero-element
shapes that also reach it no valid index exists, so the map is never
observed there.) -/
def read_data_page (shape : List ℕ) (raw : List ℕ → ℚ) (from_idx to_idx : ℕ)
    (step? : Option ℕ) (specific : Option (List ℕ)) : Option NDArray :=
  let step := step?.getD 1
  let sliced := applySlices ⟨shape, raw⟩ (buildSlices from_idx to_idx step specific shape)
  if sliced.shape.headD 0 = 1 then
    let sq := sliced.squeeze
    match sq.shape with
    | [] => none
    | n :: rest =>
      if (n :: rest).prod = n then
        some ⟨[1, n], fun idx => sq.data (idx.drop 1)⟩
      else none
  else
    some sliced.squeeze

/-- numpy fancy indexing `arr[:, cs]` generalised to an arbitrary axis:
`arr[:, (c_0, …, c_m)]` keeps every other axis and replaces the given axis by
one of length `m + 1` whose position `j` reads original position `c_j`;
it raises `IndexError` (here `none`) when some `c_j` is out of range.
`read_channels_page` uses it at axis 1. -/
def fancyIndexAxis (axis : ℕ) (a : NDArray) (cs : List ℕ) : Option NDArray :=
  let L := a.shape.getD axis 0
  if cs.all (fun c => decide (c < L)) then
    some ⟨a.shape.take axis ++ cs.length :: a.shape.drop (axis + 1),
          fun idx => a.data (idx.take axis ++ cs.getD (idx.getD axis 0) 0 :: idx.drop (axis + 1))⟩
  else none

/-- `TimeSeriesFramework.read_channels_page`: run `read_data_page`; a 1-D page
is reshaped to a column `(N, 1)` and returned unfiltered; otherwise an empty
channel selection (`None` or `[]`, both falsy in Python, giving
`slice(None)`) leaves the page unchanged and a non-empty one is applied as
`data_page[:, tuple(channels_list)]`, i.e. fancy indexing on axis 1.  The
JSON decoding of a textual `channels_list` is modelled as already done. -/
def read_channels_page (shape : List ℕ) (raw : List ℕ → ℚ) (from_idx to_idx : ℕ)
    (step? : Option ℕ) (specific : Option (List ℕ)) (channels : List ℕ) :
    Option NDArray :=
  match read_data_page shape raw from_idx to_idx step? specific with
  | none => none
  | some page =>
    if page.shape.length = 1 then
      some ⟨[page.shape.headD 0, 1], fun idx => page.data [idx.headD 0]⟩
    else if channels.isEmpty then some page
    else fancyIndexAxis 1 page channels

/-- numpy `arange(start, stop, step)`: `max(ceil((stop - start) / step), 0)`
evenly spaced values beginning at `start`. -/
def npArange (start stop step : ℚ) : List ℚ :=
  (List.range (Int.ceil ((stop - start) / step)).toNat).map fun k : ℕ =>
    start + (k : ℚ) * step

/-- `TimeSeriesFramework.read_time_page`: timestamps of one page. -/
def read_time_page (sample_period start_time : ℚ) (current_page page_size : ℕ)
    (max_size : Option ℕ) : List ℚ :=
  let m := max_size.getD page_size
  let page_real_size := (page_size : ℚ) * sample_period
  let s := start_time + (current_page : ℚ) * page_real_size
  let e := s + min page_real_size ((m : ℚ) * sample_period)
  npArange s e sample_period

/-- numpy `arr[..., ::-1]`: reverse the order of the last axis. -/
def revLast (a : NDArray) : NDArray :=
  ⟨a.shape,
   fun idx =>
     a.data (idx.take (a.shape.length - 1) ++
       [a.shape.getLastD 1 - 1 - idx.getD (a.shape.length - 1) 0])⟩

/-- numpy integer indexing on one axis (`arr[..., i]` and friends): a
negative index wraps once by the axis length; an index outside
`[-L, L)` raises `IndexError` (here `none`); the axis disappears from the
shape. -/
def indexAxis (axis : ℕ) (a : NDArray) (i : ℤ) : Option NDArray :=
  let L := a.shape.getD axis 0
  let i' := if i < 0 then i + L else i
  if 0 ≤ i' ∧ i' < (L : ℤ) then
    some ⟨a.shape.take axis ++ a.shape.drop (axis + 1),
          fun idx => a.data (idx.take axis ++ i'.toNat :: idx.drop axis)⟩
  else none

/-- `TimeSeriesVolumeFramework.get_rotated_volume_slice`: validate the time
bounds, read `[from_idx:to_idx, :, :, :]`, reverse the last (depth) axis. -/
def get_rotated_volume_slice (shape : List ℕ) (raw : List ℕ → ℚ)
    (from_idx to_idx : ℤ) : Except TSErr NDArray :=
  let s0 := shape.getD 0 0
  if to_idx < from_idx ∨ (s0 : ℤ) < to_idx ∨ from_idx < 0 then
    .error (.validation [from_idx, to_idx])
  else
    .ok (revLast (applySlices ⟨shape, raw⟩
      [⟨from_idx.toNat, to_idx.toNat, 1⟩, ⟨0, shape.getD 1 0, 1⟩,
       ⟨0, shape.getD 2 0, 1⟩, ⟨0, shape.getD 3 0, 1⟩]))

/-- `TimeSeriesVolumeFramework.get_volume_view`: validate time bounds, then
plane upper bounds (strict `>` only — no lower-bound check), read and
depth-reverse the sub-volume as in `get_rotated_volume_slice`, then extract
`slices[..., z_plane]`, `slices[:, x_plane, ...]` and `slices[..., y_plane, :]`
in that order (each can still raise `IndexError`). -/
def get_volume_view (shape : List ℕ) (raw : List ℕ → ℚ)
    (from_idx to_idx x_plane y_plane z_plane : ℤ) :
    Except TSErr (NDArray × NDArray × NDArray) :=
  let s0 := shape.getD 0 0
  let s1 := shape.getD 1 0
  let s2 := shape.getD 2 0
  let s3 := shape.getD 3 0
  if to_idx < from_idx ∨ (s0 : ℤ) < to_idx ∨ from_idx < 0 then
    .error (.validation [from_idx, to_idx])
  else if (s1 : ℤ) < x_plane ∨ (s2 : ℤ) < y_plane ∨ (s3 : ℤ) < z_plane then
    .error (.validation [x_plane, y_plane, z_plane])
  else
    let a := revLast (applySlices ⟨shape, raw⟩
      [⟨from_idx.toNat, to_idx.toNat, 1⟩, ⟨0, s1, 1⟩, ⟨0, s2, 1⟩, ⟨0, s3, 1⟩])
    match indexAxis 3 a z_plane with
    | none => .error .indexError
    | some slicex =>
      match indexAxis 1 a x_plane with
      | none => .error .indexError
      | some slicey =>
        match indexAxis 2 a y_plane with
        | none => .error .indexError
        | some slicez => .ok (slicex, slicey, slicez)

/-- Python slice-bound normalisation for a positive step: wrap a negative
bound once by the axis length, then clamp into `[0, L]`. -/
def pyIdx (L : ℕ) (i : ℤ) : ℕ :=
  (max 0 (min (L : ℤ) (if i < 0 then i + L else i))).toNat

/-- All multi-indices of a shape in row-major (C) order. -/
def allIdx : List ℕ → List (List ℕ)
  | [] => [[]]
  | L :: Ls => (List.range L).flatMap fun i => (allIdx Ls).map (i :: ·)

/-- numpy `ndarray.flatten()`: the values in row-major order. -/
def NDArray.toFlatList (a : NDArray) : List ℚ := (allIdx a.shape).map a.data

/-- Python `max(xs)` over a numeric sequence (callers guarantee non-empty;
the `[]` case stands in for the raised `ValueError`). -/
def pyMax : List ℚ → ℚ
  | [] => 0
  | x :: xs => xs.foldl max x

/-- Python `min(xs)` over a numeric sequence. -/
def pyMin : List ℚ → ℚ
  | [] => 0
  | x :: xs => xs.foldl min x

/-- numpy `mean`: sum divided by length. -/
def npMean (l : List ℚ) : ℚ := l.sum / l.length

/-- numpy `median`: sort ascending; middle element for odd length, average of
the two middle elements for even length. -/
def npMedian (l : List ℚ) : ℚ :=
  let s := l.insertionSort (· ≤ ·)
  let n := l.length
  if n % 2 = 1 then s.getD (n / 2) 0
  else (s.getD (n / 2 - 1) 0 + s.getD (n / 2) 0) / 2

/-- numpy `var`: population variance, the mean of squared deviations. -/
def npVar (l : List ℚ) : ℚ :=
  (l.map (fun x => (x - npMean l) ^ 2)).sum / l.length

/-- The structured result of `get_voxel_time_series`.  The source dict also
carries `deviation = sqrt(variance)`; the square root is irrational-valued in
general and is not representable in this rational model, and no claim
constrains its value beyond its presence, so it is not a field here. -/
structure VoxelResult where
  data : List ℚ
  max : ℚ
  min : ℚ
  mean : ℚ
  median : ℚ
  variance : ℚ
deriving DecidableEq, Repr

/-- `TimeSeriesVolumeFramework.get_voxel_time_series`: validate plane upper
bounds only, read the `(x, y)` column over all time and the whole depth axis,
depth-reverse, select depth `z`, flatten, and return the course with its
summary statistics (`max()`/`min()` on an empty course raise `ValueError`). -/
def get_voxel_time_series (shape : List ℕ) (raw : List ℕ → ℚ) (x y z : ℤ) :
    Except TSErr VoxelResult :=
  let s0 := shape.getD 0 0
  let s1 := shape.getD 1 0
  let s2 := shape.getD 2 0
  let s3 := shape.getD 3 0
  if (s1 : ℤ) < x ∨ (s2 : ℤ) < y ∨ (s3 : ℤ) < z then
    .error (.validation [x, y, z])
  else
    let a := revLast (applySlices ⟨shape, raw⟩
      [⟨0, s0, 1⟩, ⟨pyIdx s1 x, pyIdx s1 (x + 1), 1⟩,
       ⟨pyIdx s2 y, pyIdx s2 (y + 1), 1⟩, ⟨0, s3, 1⟩])
    match indexAxis 3 a z with
    | none => .error .indexError
    | some b =>
      let ds := b.toFlatList
      if ds.isEmpty then .error .valueError
      else .ok ⟨ds, pyMax ds, pyMin ds, npMean ds, npMedian ds, npVar ds⟩

/-- The shape-derived fields of a TimeSeries datatype instance. -/
structure TSFields where
  sample_period : ℚ
  start_time : ℚ
  nr_dimensions : ℕ
  sample_rate : ℚ
  length_1d : ℕ
  length_2d : ℕ
  length_3d : ℕ
  length_4d : ℕ
deriving DecidableEq, Repr

/-- One iteration of the `setattr(self, 'length_%dd' % (i + 1), shape[i])`
loop of `configure`. -/
def setLength (st : TSFields) (i v : ℕ) : TSFields :=
  if i = 0 then {st with length_1d := v}
  else if i = 1 then {st with length_2d := v}
  else if i = 2 then {st with length_3d := v}
  else if i = 3 then {st with length_4d := v}
  else st

/-- `TimeSeriesFramework.read_data_shape`: expose the storage shape; a storage
read failure (`TVBException`) is re-raised as `TVBException ("Invalid empty
TimeSeries!")`, the spec's `InvalidTimeSeriesError`. -/
def read_data_shape (storage : Except Unit (List ℕ)) : Except TSErr (List ℕ) :=
  match storage with
  | .ok s => .ok s
  | .error _ => .error .invalidTimeSeries

/-- `TimeSeriesFramework.configure`: read the shape once, derive
`nr_dimensions`, `sample_rate` and `length_1d..length_4d` (for
`i in range(min(nr_dimensions, 4))`).  The `super().configure()` call touches
none of these fields and is outside the modelled core. -/
def configure (st : TSFields) (storage : Except Unit (List ℕ)) :
    Except TSErr TSFields :=
  match read_data_shape storage with
  | .error e => .error e
  | .ok s =>
    let st1 := {st with nr_dimensions := s.length, sample_rate := 1 / st.sample_period}
    .ok ((List.range (min s.length 4)).foldl (fun acc i => setLength acc i (s.getD i 0)) st1)

/-- `TimeSeriesSurfaceFramework.SELECTION_LIMIT`. -/
def SELECTION_LIMIT : ℕ := 100

/-- `TimeSeriesSurfaceFramework.get_space_labels`: the first
`min(length_3d, SELECTION_LIMIT)` generated vertex labels. -/
def surface_get_space_labels (length_3d : ℕ) : List String :=
  (List.range (min length_3d SELECTION_LIMIT)).map fun i => "signal-" ++ toString i

/-- Modelled from the spec's words for claim C3 (`specSlices` is the
spec-side description, to be compared with `buildSlices` from the source):
one slice per axis; axis 0 gets `[from_idx : min(to_idx, shape[0]) : step]`;
axis 2 gets the full range `[0 : shape[2]]` unconditionally; every other axis
gets `[0:1]` without `specific_slices`, else the single index
`specific_slices[axis]` with the upper bound clamped so that
`specific_slices[axis] + 1 ≤ shape[axis]`. -/
def specSlices (from_idx to_idx step : ℕ) (specific : Option (List ℕ))
    (shape : List ℕ) : List Slc :=
  (List.range shape.length).map fun i =>
    if i = 0 then ⟨from_idx, min to_idx (shape.getD 0 0), step⟩
    else if i = 2 then ⟨0, shape.getD 2 0, 1⟩
    else
      match specific with
      | none => ⟨0, 1, 1⟩
      | some sl => ⟨sl.getD i 0, min (sl.getD i 0 + 1) (shape.getD i 0), 1⟩

/-- Claim C3: for every backing shape of rank 1 to 4, `read_data_page` builds
exactly one slice per axis, and the slice built for each axis is exactly the
one the spec describes: axis 0 `[from_idx : min(to_idx, shape[0]) : step]`
(over-long time requests clamped, never an error), axis 2 the unconditional
full range `[0 : shape[2]]`, and every other axis `[0:1]` without
`specific_slices`, else the single index `specific_slices[axis]` clamped so
`specific_slices[axis] + 1 ≤ shape[axis]`. -/
theorem read_data_page_builds_spec_slices (shape : List ℕ) (f t st : ℕ)
    (sp : Option (List ℕ)) (h1 : 1 ≤ shape.length) (h4 : shape.length ≤ 4) :
    (buildSlices f t st sp shape).length = shape.length
    ∧ buildSlices f t st sp shape = specSlices f t st sp shape := by
  rcases shape with _ | ⟨a, _ | ⟨b, _ | ⟨c, _ | ⟨d, rest⟩⟩⟩⟩
  · simp at h1
  · cases sp <;>
      simp [buildSlices, buildSlicesAux, sliceFor, specSlices, List.range_succ]
  · cases sp <;>
      simp [buildSlices, buildSlicesAux, sliceFor, specSlices, List.range_succ]
  · cases sp <;>
      simp [buildSlices, buildSlicesAux, sliceFor, specSlices, List.range_succ]
  · have hrest : rest = [] := by
      simp only [List.length_cons] at h4
      have := Nat.le_of_succ_le_succ (Nat.le_of_succ_le_succ
        (Nat.le_of_succ_le_succ (Nat.le_of_succ_le_succ h4)))
      exact List.length_eq_zero.mp (Nat.le_zero.mp this)
    subst hrest
    cases sp <;>
      simp [buildSlices, buildSlicesAux, sliceFor, specSlices, List.range_succ]

/-- Witness for C3 at a concrete rank-3 shape with explicit specific
slices. -/
theorem read_data_page_builds_spec_slices_witness :
    (buildSlices 1 9 2 (some [0, 3, 0]) [5, 4, 6]).length = 3
    ∧ buildSlices 1 9 2 (some [0, 3, 0]) [5, 4, 6]
        = specSlices 1 9 2 (some [0, 3, 0]) [5, 4, 6] :=
  read_data_page_builds_spec_slices [5, 4, 6] 1 9 2 (some [0, 3, 0])
    (by decide) (by decide)

/-- Claim C9: for a Surface-backed series, `get_space_labels` returns exactly
`min(length_3d, 100)` labels, the `i`-th being `"signal-i"`; in particular
with `length_3d = 500` it returns exactly the 100 labels
`"signal-0" .. "signal-99"`, honoring the hard cap of 100. -/
theorem surface_space_labels_spec (L : ℕ) :
    (surface_get_space_labels L).length = min L 100
    ∧ (∀ i, i < min L 100 →
        (surface_get_space_labels L).getD i "" = "signal-" ++ toString i)
    ∧ surface_get_space_labels 500
        = (List.range 100).map (fun i => "signal-" ++ toString i) := by
  refine ⟨by simp [surface_get_space_labels, SELECTION_LIMIT], ?_, ?_⟩
  · intro i hi
    rw [surface_get_space_labels, List.getD_eq_getElem?_getD, List.getElem?_map,
      List.getElem?_range (by simpa [SELECTION_LIMIT] using hi)]
    rfl
  · rfl

/-- Witness for C9 at `length_3d = 500`: 100 labels, the last one being
`"signal-99"`. -/
theorem surface_space_labels_spec_witness :
    (surface_get_space_labels 500).length = min 500 100
    ∧ (surface_get_space_labels 500).getD 99 "" = "signal-" ++ toString 99 :=
  ⟨(surface_space_labels_spec 500).1,
   (surface_space_labels_spec 500).2.1 99 (by decide)⟩

/-- Auxiliary: `read_time_page` is the arange of the page window, written
with the span `min(page_size, max_size or page_size) * sample_period` made
explicit. -/
theorem read_time_page_eq_map (sp t0 : ℚ) (cp ps : ℕ) (ms : Option ℕ) :
    read_time_page sp t0 cp ps ms
      = (List.range (Int.ceil
            ((min ((ps : ℚ) * sp) (((ms.getD ps : ℕ) : ℚ) * sp)) / sp)).toNat).map
          (fun k : ℕ => t0 + (cp : ℚ) * ((ps : ℚ) * sp) + (k : ℚ) * sp) := by
  simp only [read_time_page, npArange, add_sub_cancel_left]

/-- Claim C2: for every `current_page` and `page_size > 0` (with
`sample_period > 0`), `read_time_page` returns the arithmetic sequence
`start, start + sample_period, …` strictly below
`end = start + min(page_size, max_size or page_size) * sample_period`, where
`start = start_time + current_page * page_size * sample_period`; the sequence
is strictly increasing with constant spacing `sample_period`, has
`ceil(span / sample_period)` elements, and is empty when the span is
nonpositive.  (The backing data length is not an input at all, so no clamp
against it can occur.) -/
theorem read_time_page_arithmetic (sp t0 : ℚ) (cp ps : ℕ) (ms : Option ℕ)
    (hsp : 0 < sp) (hps : 0 < ps) :
    (read_time_page sp t0 cp ps ms).length
        = (Int.ceil ((min ((ps : ℚ) * sp) (((ms.getD ps : ℕ) : ℚ) * sp)) / sp)).toNat
    ∧ (∀ k, k < (read_time_page sp t0 cp ps ms).length →
        (read_time_page sp t0 cp ps ms).getD k 0
          = t0 + (cp : ℚ) * ((ps : ℚ) * sp) + (k : ℚ) * sp)
    ∧ List.Chain' (fun a b => a < b ∧ b = a + sp) (read_time_page sp t0 cp ps ms)
    ∧ (∀ x ∈ read_time_page sp t0 cp ps ms,
        x < t0 + (cp : ℚ) * ((ps : ℚ) * sp)
              + min ((ps : ℚ) * sp) (((ms.getD ps : ℕ) : ℚ) * sp))
    ∧ (min ((ps : ℚ) * sp) (((ms.getD ps : ℕ) : ℚ) * sp) ≤ 0 →
        read_time_page sp t0 cp ps ms = [])
    ∧ (read_time_page sp t0 cp ps ms ≠ [] →
        (read_time_page sp t0 cp ps ms).headD 0
          = t0 + (cp : ℚ) * ((ps : ℚ) * sp)) := by
  have key := read_time_page_eq_map sp t0 cp ps ms
  set span := min ((ps : ℚ) * sp) (((ms.getD ps : ℕ) : ℚ) * sp) with hspan
  set s : ℚ := t0 + (cp : ℚ) * ((ps : ℚ) * sp) with hs
  refine ⟨?_, ?_, ?_, ?_, ?_, ?_⟩
  · rw [key]; simp
  · intro k hk
    rw [key] at hk ⊢
    simp only [List.length_map, List.length_range] at hk
    rw [List.getD_eq_getElem?_getD, List.getElem?_map, List.getElem?_range hk]
    rfl
  · rw [key, List.chain'_iff_get]
    intro i hi
    simp only [List.get_eq_getElem, List.getElem_map, List.getElem_range]
    constructor
    · have : (i : ℚ) < ((i + 1 : ℕ) : ℚ) := by push_cast; linarith
      have := mul_lt_mul_of_pos_right this hsp
      linarith
    · push_cast; ring
  · intro x hx
    rw [key] at hx
    obtain ⟨k, hk, rfl⟩ := List.mem_map.mp hx
    have hkN := List.mem_range.mp hk
    have hkZ : (k : ℤ) < Int.ceil (span / sp) := Int.lt_toNat.mp hkN
    have hkQ : (k : ℚ) < span / sp := by exact_mod_cast Int.lt_ceil.mp hkZ
    have : (k : ℚ) * sp < span := (lt_div_iff hsp).mp hkQ
    linarith
  · intro hle
    have hdiv : span / sp ≤ 0 := div_nonpos_of_nonpos_of_nonneg hle hsp.le
    have : Int.ceil (span / sp) ≤ 0 := by
      rw [show (0 : ℤ) = ((0 : ℕ) : ℤ) from rfl]
      exact Int.ceil_le.mpr (by exact_mod_cast hdiv)
    rw [key, Int.toNat_of_nonpos this]
    simp
  · intro hne
    rw [key] at hne ⊢
    rcases hN : (Int.ceil (span / sp)).toNat with _ | n
    · rw [hN] at hne; simp at hne
    · rw [List.range_succ_eq_map]
      simp

/-- Witness for C2: `sample_period = 1/10`, `start_time = 0`, page 0 of size
50 — 50 timestamps starting at 0. -/
theorem read_time_page_arithmetic_witness :
    (read_time_page (1 / 10) 0 0 50 none).length = 50
    ∧ (read_time_page (1 / 10) 0 0 50 none).headD 0 = 0 := by
  have h := read_time_page_arithmetic (1 / 10) 0 0 50 none (by norm_num) (by norm_num)
  have h50 : (Int.ceil ((min (((50 : ℕ) : ℚ) * (1 / 10))
      ((((none : Option ℕ).getD 50 : ℕ) : ℚ) * (1 / 10))) / (1 / 10))).toNat = 50 := by
    norm_num
    rfl
  have hlen := h.1.trans h50
  have hne : read_time_page (1 / 10) 0 0 50 none ≠ [] := by
    intro hcon
    rw [hcon] at hlen
    simp at hlen
  have := h.2.2.2.2.2 hne
  exact ⟨hlen, by simpa using this⟩

/-- Integer indexing at a position equal to the axis extent always raises
`IndexError` (the extent itself is never a valid index). -/
theorem indexAxis_extent_none (a : NDArray) (axis : ℕ) (i : ℤ)
    (h : i = ((a.shape.getD axis 0 : ℕ) : ℤ)) : indexAxis axis a i = none := by
  subst h
  have hL : ¬(((a.shape[axis]?.getD 0 : ℕ) : ℤ) < 0) :=
    not_lt.mpr (Int.natCast_nonneg _)
  simp [indexAxis, List.getD_eq_getElem?_getD, hL]

/-- Shape of the depth-reversed 4-D sub-volume `[f':t', :, :, :]` read by the
volume engine, for an in-range time window. -/
theorem volumeSubvol_shape (s0 s1 s2 s3 f' t' : ℕ) (raw : List ℕ → ℚ)
    (h : t' ≤ s0) :
    (revLast (applySlices ⟨[s0, s1, s2, s3], raw⟩
      [⟨f', t', 1⟩, ⟨0, s1, 1⟩, ⟨0, s2, 1⟩, ⟨0, s3, 1⟩])).shape
      = [t' - f', s1, s2, s3] := by
  simp [revLast, applySlices, slcLen, min_eq_left h]

/-- Claim C4: `get_rotated_volume_slice` and `get_volume_view` raise
`ValidationError` carrying the offending indices exactly when `from_idx < 0`,
`from_idx > to_idx` or `to_idx > shape[0]`, and `get_volume_view`
additionally when a plane coordinate exceeds its axis extent; bounds are
never silently clamped, and negative plane coordinates pass validation
(upper-bound checks only). -/
theorem volume_validation_iff (s0 s1 s2 s3 : ℕ) (raw : List ℕ → ℚ)
    (f t x y z : ℤ) :
    (isValidationResult (get_rotated_volume_slice [s0, s1, s2, s3] raw f t) = true
        ↔ (f < 0 ∨ t < f ∨ (s0 : ℤ) < t))
    ∧ (isValidationResult (get_volume_view [s0, s1, s2, s3] raw f t x y z) = true
        ↔ (f < 0 ∨ t < f ∨ (s0 : ℤ) < t
            ∨ (s1 : ℤ) < x ∨ (s2 : ℤ) < y ∨ (s3 : ℤ) < z))
    ∧ ((f < 0 ∨ t < f ∨ (s0 : ℤ) < t) →
        get_rotated_volume_slice [s0, s1, s2, s3] raw f t
          = .error (.validation [f, t]))
    ∧ ((f < 0 ∨ t < f ∨ (s0 : ℤ) < t) →
        get_volume_view [s0, s1, s2, s3] raw f t x y z
          = .error (.validation [f, t]))
    ∧ (¬(f < 0 ∨ t < f ∨ (s0 : ℤ) < t) →
        ((s1 : ℤ) < x ∨ (s2 : ℤ) < y ∨ (s3 : ℤ) < z) →
        get_volume_view [s0, s1, s2, s3] raw f t x y z
          = .error (.validation [x, y, z])) := by
  by_cases hc1 : t < f ∨ (s0 : ℤ) < t ∨ f < 0
  · have hc1' : f < 0 ∨ t < f ∨ (s0 : ℤ) < t := by tauto
    refine ⟨?_, ?_, fun _ => ?_, fun _ => ?_, fun hn _ => absurd hc1' hn⟩ <;>
      simp [get_rotated_volume_slice, get_volume_view, List.getD_cons_zero,
        List.getD_cons_succ, if_pos hc1, isValidationResult, TSErr.isValidation,
        hc1'] <;> tauto
  · have hc1' : ¬(f < 0 ∨ t < f ∨ (s0 : ℤ) < t) := by tauto
    by_cases hc2 : (s1 : ℤ) < x ∨ (s2 : ℤ) < y ∨ (s3 : ℤ) < z
    · refine ⟨?_, ?_, fun h => absurd h hc1', fun h => absurd h hc1', fun _ _ => ?_⟩ <;>
        simp [get_rotated_volume_slice, get_volume_view, List.getD_cons_zero,
          List.getD_cons_succ, if_neg hc1, if_pos hc2, isValidationResult,
          TSErr.isValidation, hc1', hc2]
    · refine ⟨?_, ?_, fun h => absurd h hc1', fun h => absurd h hc1',
        fun _ h => absurd h hc2⟩
      · simp [get_rotated_volume_slice, List.getD_cons_zero, List.getD_cons_succ,
          if_neg hc1, isValidationResult, TSErr.isValidation, hc1']
      · simp only [get_volume_view, List.getD_cons_zero, List.getD_cons_succ,
          if_neg hc1, if_neg hc2]
        rcases h3 : indexAxis 3 (revLast (applySlices ⟨[s0, s1, s2, s3], raw⟩
            [⟨f.toNat, t.toNat, 1⟩, ⟨0, s1, 1⟩, ⟨0, s2, 1⟩, ⟨0, s3, 1⟩])) z
            with _ | sx
        · simp [isValidationResult, TSErr.isValidation, hc1', hc2]
        · rcases h1 : indexAxis 1 (revLast (applySlices ⟨[s0, s1, s2, s3], raw⟩
              [⟨f.toNat, t.toNat, 1⟩, ⟨0, s1, 1⟩, ⟨0, s2, 1⟩, ⟨0, s3, 1⟩])) x
              with _ | sy
          · simp [isValidationResult, TSErr.isValidation, hc1', hc2]
          · rcases h2 : indexAxis 2 (revLast (applySlices ⟨[s0, s1, s2, s3], raw⟩
                [⟨f.toNat, t.toNat, 1⟩, ⟨0, s1, 1⟩, ⟨0, s2, 1⟩, ⟨0, s3, 1⟩])) y
                with _ | sz
            · simp [isValidationResult, TSErr.isValidation, hc1', hc2]
            · simp [isValidationResult, TSErr.isValidation, hc1', hc2]

/-- Witness for C4: on a `(4, 2, 3, 5)` volume, `to_idx = 9 > 4` raises
validation with the offending time indices, and a negative plane coordinate
with in-range time bounds does not raise validation. -/
theorem volume_validation_iff_witness :
    get_rotated_volume_slice [4, 2, 3, 5] (fun _ => 0) 0 9
        = .error (.validation [0, 9])
    ∧ isValidationResult
        (get_volume_view [4, 2, 3, 5] (fun _ => 0) 0 4 (-1) 0 0) = false := by
  constructor
  · exact (volume_validation_iff 4 2 3 5 (fun _ => 0) 0 9 0 0 0).2.2.1
      (by norm_num)
  · have h := ((volume_validation_iff 4 2 3 5 (fun _ => 0) 0 4 (-1) 0 0).2.1)
    rcases hv : isValidationResult
        (get_volume_view [4, 2, 3, 5] (fun _ => 0) 0 4 (-1) 0 0) with _ | _
    · rfl
    · exact absurd (h.mp hv) (by norm_num)

/-- Claim C5: for `0 ≤ from_idx ≤ to_idx ≤ shape[0]` on a 4-D series,
`get_rotated_volume_slice` returns the 4-D sub-volume
`[from_idx:to_idx, :, :, :]` with the depth axis reversed:
`result[t, i, j, k] = raw[from_idx + t, i, j, shape[3] - 1 - k]`. -/
theorem get_rotated_volume_slice_spec (s0 s1 s2 s3 : ℕ) (raw : List ℕ → ℚ)
    (f t : ℤ) (h0 : 0 ≤ f) (h1 : f ≤ t) (h2 : t ≤ (s0 : ℤ)) :
    ∃ a, get_rotated_volume_slice [s0, s1, s2, s3] raw f t = .ok a
      ∧ a.shape = [t.toNat - f.toNat, s1, s2, s3]
      ∧ ∀ ti i j k, ti < t.toNat - f.toNat → i < s1 → j < s2 → k < s3 →
          a.data [ti, i, j, k] = raw [f.toNat + ti, i, j, s3 - 1 - k] := by
  have hcond : ¬(t < f ∨ ((([s0, s1, s2, s3].getD 0 0 : ℕ)) : ℤ) < t ∨ f < 0) := by
    push_neg
    exact ⟨h1, by simpa using h2, h0⟩
  have htN : t.toNat ≤ s0 := Int.toNat_le.mpr h2
  refine ⟨revLast (applySlices ⟨[s0, s1, s2, s3], raw⟩
      [⟨f.toNat, t.toNat, 1⟩, ⟨0, s1, 1⟩, ⟨0, s2, 1⟩, ⟨0, s3, 1⟩]), ?_, ?_, ?_⟩
  · simp only [get_rotated_volume_slice]
    rw [if_neg hcond]
    rfl
  · exact volumeSubvol_shape s0 s1 s2 s3 f.toNat t.toNat raw htN
  · intro ti i j k _ _ _ _
    have hsh := volumeSubvol_shape s0 s1 s2 s3 f.toNat t.toNat raw htN
    simp [revLast, applySlices, slcLen, min_eq_left htN]

/-- Witness for C5: a `(2, 1, 1, 2)` volume holding `10 * t + k` at
`[t, 0, 0, k]`; the full rotated slice has the original shape and its depth
axis reversed, so position `[1, 0, 0, 0]` holds `raw[1, 0, 0, 1] = 11`. -/
theorem get_rotated_volume_slice_spec_witness :
    ((get_rotated_volume_slice [2, 1, 1, 2]
        (fun idx => 10 * (idx.headD 0 : ℚ) + (idx.getD 3 0 : ℚ)) 0 2).map
      NDArray.shape = .ok [2, 1, 1, 2])
    ∧ ((get_rotated_volume_slice [2, 1, 1, 2]
        (fun idx => 10 * (idx.headD 0 : ℚ) + (idx.getD 3 0 : ℚ)) 0 2).map
      (fun a => a.data [1, 0, 0, 0]) = .ok 11) := by
  obtain ⟨a, ha, hsh, hdat⟩ := get_rotated_volume_slice_spec 2 1 1 2
    (fun idx => 10 * (idx.headD 0 : ℚ) + (idx.getD 3 0 : ℚ)) 0 2
    (by norm_num) (by norm_num) (by norm_num)
  rw [ha]
  have hv := hdat 1 0 0 0 (by norm_num) (by norm_num) (by norm_num) (by norm_num)
  constructor
  · simp only [Except.map]
    rw [hsh]
    rfl
  · simp only [Except.map]
    rw [hv]
    norm_num

/-- Claim C10: a plane coordinate exactly equal to its axis extent passes the
strict upper-bound validation of `get_volume_view`, but the subsequent
cross-section extraction indexes one past the end of that axis, so the call
fails with `IndexError` — not a `ValidationError` — instead of returning. -/
theorem get_volume_view_boundary_plane_fails (s0 s1 s2 s3 : ℕ)
    (raw : List ℕ → ℚ) (f t x y z : ℤ)
    (h0 : 0 ≤ f) (h1 : f ≤ t) (h2 : t ≤ (s0 : ℤ))
    (hx : x ≤ (s1 : ℤ)) (hy : y ≤ (s2 : ℤ)) (hz : z ≤ (s3 : ℤ))
    (hb : x = (s1 : ℤ) ∨ y = (s2 : ℤ) ∨ z = (s3 : ℤ)) :
    get_volume_view [s0, s1, s2, s3] raw f t x y z = .error .indexError
    ∧ TSErr.indexError.isValidation = false := by
  have hc1 : ¬(t < f ∨ (s0 : ℤ) < t ∨ f < 0) := by push_neg; exact ⟨h1, h2, h0⟩
  have hc2 : ¬((s1 : ℤ) < x ∨ (s2 : ℤ) < y ∨ (s3 : ℤ) < z) := by
    push_neg; exact ⟨hx, hy, hz⟩
  have htN : t.toNat ≤ s0 := Int.toNat_le.mpr h2
  have hsh := volumeSubvol_shape s0 s1 s2 s3 f.toNat t.toNat raw htN
  refine ⟨?_, rfl⟩
  simp only [get_volume_view, List.getD_cons_zero, List.getD_cons_succ]
  rw [if_neg hc1, if_neg hc2]
  rcases hb with hbx | hby | hbz
  · rcases h3 : indexAxis 3 (revLast (applySlices ⟨[s0, s1, s2, s3], raw⟩
        [⟨f.toNat, t.toNat, 1⟩, ⟨0, s1, 1⟩, ⟨0, s2, 1⟩, ⟨0, s3, 1⟩])) z
        with _ | sx
    · rfl
    · have h1n : indexAxis 1 (revLast (applySlices ⟨[s0, s1, s2, s3], raw⟩
          [⟨f.toNat, t.toNat, 1⟩, ⟨0, s1, 1⟩, ⟨0, s2, 1⟩, ⟨0, s3, 1⟩])) x = none := by
        apply indexAxis_extent_none
        rw [hsh]
        simpa using hbx
      rw [h1n]
  · rcases h3 : indexAxis 3 (revLast (applySlices ⟨[s0, s1, s2, s3], raw⟩
        [⟨f.toNat, t.toNat, 1⟩, ⟨0, s1, 1⟩, ⟨0, s2, 1⟩, ⟨0, s3, 1⟩])) z
        with _ | sx
    · rfl
    · rcases h1 : indexAxis 1 (revLast (applySlices ⟨[s0, s1, s2, s3], raw⟩
          [⟨f.toNat, t.toNat, 1⟩, ⟨0, s1, 1⟩, ⟨0, s2, 1⟩, ⟨0, s3, 1⟩])) x
          with _ | sy
      · rfl
      · have h2n : indexAxis 2 (revLast (applySlices ⟨[s0, s1, s2, s3], raw⟩
            [⟨f.toNat, t.toNat, 1⟩, ⟨0, s1, 1⟩, ⟨0, s2, 1⟩, ⟨0, s3, 1⟩])) y = none := by
          apply indexAxis_extent_none
          rw [hsh]
          simpa using hby
        rw [h2n]
  · have h3n : indexAxis 3 (revLast (applySlices ⟨[s0, s1, s2, s3], raw⟩
        [⟨f.toNat, t.toNat, 1⟩, ⟨0, s1, 1⟩, ⟨0, s2, 1⟩, ⟨0, s3, 1⟩])) z = none := by
      apply indexAxis_extent_none
      rw [hsh]
      simpa using hbz
    rw [h3n]

/-- Witness for C10: on a `(2, 2, 2, 2)` volume with valid time bounds,
`z_plane = 2` equals the depth extent, passes validation, and the call fails
with `IndexError`. -/
theorem get_volume_view_boundary_plane_fails_witness :
    get_volume_view [2, 2, 2, 2] (fun _ => 0) 0 2 0 0 2 = .error .indexError
    ∧ TSErr.indexError.isValidation = false :=
  get_volume_view_boundary_plane_fails 2 2 2 2 (fun _ => 0) 0 2 0 0 2
    (by norm_num) (by norm_num) (by norm_num) (by norm_num) (by norm_num)
    (by norm_num) (Or.inr (Or.inr (by norm_num)))

/-- Claim C8: `read_data_shape` returns the backing store's shape and fails
with the invalid-TimeSeries error when the backing array is empty or
unreadable; `configure` calls it once and sets `nr_dimensions = len(shape)`,
`sample_rate = 1 / sample_period` and `length_{i+1}d = shape[i]` for every
`i < min(nr_dimensions, 4)`, leaving every other derived field (and
`sample_period` / `start_time`) untouched. -/
theorem configure_spec (st : TSFields) (s : List ℕ) :
    read_data_shape (Except.ok s) = .ok s
    ∧ read_data_shape (Except.error ()) = .error .invalidTimeSeries
    ∧ configure st (Except.error ()) = .error .invalidTimeSeries
    ∧ ∃ st2, configure st (Except.ok s) = .ok st2
        ∧ st2.nr_dimensions = s.length
        ∧ st2.sample_rate = 1 / st.sample_period
        ∧ st2.sample_period = st.sample_period
        ∧ st2.start_time = st.start_time
        ∧ (0 < min s.length 4 → st2.length_1d = s.getD 0 0)
        ∧ (min s.length 4 = 0 → st2.length_1d = st.length_1d)
        ∧ (1 < min s.length 4 → st2.length_2d = s.getD 1 0)
        ∧ (min s.length 4 ≤ 1 → st2.length_2d = st.length_2d)
        ∧ (2 < min s.length 4 → st2.length_3d = s.getD 2 0)
        ∧ (min s.length 4 ≤ 2 → st2.length_3d = st.length_3d)
        ∧ (3 < min s.length 4 → st2.length_4d = s.getD 3 0)
        ∧ (min s.length 4 ≤ 3 → st2.length_4d = st.length_4d) := by
  refine ⟨rfl, rfl, rfl, ?_⟩
  refine ⟨(List.range (min s.length 4)).foldl
      (fun acc i => setLength acc i (s.getD i 0))
      {st with nr_dimensions := s.length, sample_rate := 1 / st.sample_period},
    rfl, ?_⟩
  have h4 : min s.length 4 ≤ 4 := min_le_right _ _
  have hcases : min s.length 4 = 0 ∨ min s.length 4 = 1 ∨ min s.length 4 = 2
      ∨ min s.length 4 = 3 ∨ min s.length 4 = 4 := by omega
  rcases hcases with h | h | h | h | h <;>
    rw [h] <;>
    simp [List.range_succ, List.foldl_append, setLength]

/-- Witness for C8: a concrete unreadable store yields the
invalid-TimeSeries error through `configure`. -/
theorem configure_spec_witness :
    configure ⟨1 / 2, 0, 0, 0, 0, 0, 0, 0⟩ (Except.error ())
      = .error .invalidTimeSeries :=
  (configure_spec ⟨1 / 2, 0, 0, 0, 0, 0, 0, 0⟩ [7, 5, 3]).2.2.1

/-- Axes at loop position 3 and beyond (with no `specific_slices`) all get
the default first-element slice `[0:1]`. -/
theorem buildSlicesAux_none_ge3 (f t st : ℕ) (Ls : List ℕ) (i : ℕ) (h : 3 ≤ i) :
    buildSlicesAux f t st none i Ls = List.replicate Ls.length (⟨0, 1, 1⟩ : Slc) := by
  induction Ls generalizing i with
  | nil => simp [buildSlicesAux]
  | cons L Ls ih =>
    have hi0 : i ≠ 0 := by omega
    have hi2 : i ≠ 2 := by omega
    simp [buildSlicesAux, sliceFor, hi0, hi2, ih (i + 1) (by omega),
      List.replicate_succ]

/-- The default `[0:1]` slices select `min 1 L` positions on each axis. -/
theorem zipWith_slcLen_default (Ls : List ℕ) :
    List.zipWith slcLen (List.replicate Ls.length (⟨0, 1, 1⟩ : Slc)) Ls
      = Ls.map (fun L => min 1 L) := by
  induction Ls with
  | nil => rfl
  | cons L Ls ih =>
    rw [List.length_cons, List.replicate_succ, List.zipWith_cons_cons, ih,
      List.map_cons]
    congr 1
    simp [slcLen]

/-- Squeezing removes all the (length-1) default-sliced trailing axes of a
page over non-empty backing axes. -/
theorem filter_min_one_eq_nil (Ls : List ℕ) (h : ∀ L ∈ Ls, 1 ≤ L) :
    (Ls.map (fun L => min 1 L)).filter (· != 1) = [] := by
  rw [List.filter_eq_nil]
  intro a ha
  obtain ⟨L, hL, rfl⟩ := List.mem_map.mp ha
  simp [Nat.min_eq_left (h L hL)]

/-- Counterexample to claim C1 as stated: on the rank-2 backing array of
shape `(3, 1)` the page request `read_data_page(0, 3)` returns a rank-1
result of shape `(3,)` — squeezing removes the length-1 space axis — not a
rank-2 (time × space) array. -/
theorem read_data_page_rank2_counterexample :
    (read_data_page [3, 1] (fun _ => 0) 0 3 none none).map NDArray.shape
        = some [3]
    ∧ ([3] : List ℕ).length ≠ 2 := by
  constructor
  · rfl
  · decide

/-- Claim C1 (amended): for every backing array of rank ≥ 3 whose axes are
all non-empty and whose axis 2 (the spatial axis kept in full) has length at
least 2, every page request without `specific_slices` returns a rank-2
(time × space) array of shape `(t, shape[2])` where `t` is the clamped
time-slice length; in particular, when the time slice has length 1 the
length-1 axes are removed and the time axis is re-added as a leading
dimension of size 1, giving shape `(1, shape[2])`. -/
theorem read_data_page_rank2_amended (s0 s1 s2 : ℕ) (rest : List ℕ)
    (raw : List ℕ → ℚ) (f t : ℕ) (step? : Option ℕ)
    (hs1 : 1 ≤ s1) (hs2 : 2 ≤ s2) (hrest : ∀ L ∈ rest, 1 ≤ L) :
    ∃ a, read_data_page (s0 :: s1 :: s2 :: rest) raw f t step? none = some a
      ∧ a.shape = [(min t s0 - f + (step?.getD 1 - 1)) / step?.getD 1, s2]
      ∧ a.shape.length = 2 := by
  set st := step?.getD 1 with hst
  set tl := (min t s0 - f + (st - 1)) / st with htl
  have hslices : buildSlices f t st none (s0 :: s1 :: s2 :: rest)
      = ⟨f, min t s0, st⟩ :: ⟨0, 1, 1⟩ :: ⟨0, s2, 1⟩ ::
          List.replicate rest.length (⟨0, 1, 1⟩ : Slc) := by
    simp [buildSlices, buildSlicesAux, sliceFor,
      buildSlicesAux_none_ge3 f t st rest 3 le_rfl]
  have hmin : min (min t s0) s0 = min t s0 := by
    rw [min_assoc, min_self]
  have hsh : (applySlices ⟨s0 :: s1 :: s2 :: rest, raw⟩
        (buildSlices f t st none (s0 :: s1 :: s2 :: rest))).shape
      = tl :: 1 :: s2 :: rest.map (fun L => min 1 L) := by
    rw [hslices]
    simp [applySlices, slcLen, zipWith_slcLen_default, hmin,
      Nat.min_eq_left hs1, htl]
  have hs2ne : (s2 != 1) = true := by
    simp only [bne_iff_ne, ne_eq]
    omega
  have hrest0 : ((rest.map (fun L => min 1 L)).filter (· != 1)) = [] :=
    filter_min_one_eq_nil rest hrest
  by_cases h1 : tl = 1
  · refine ⟨⟨[1, s2], fun idx =>
        (applySlices ⟨s0 :: s1 :: s2 :: rest, raw⟩
          (buildSlices f t st none (s0 :: s1 :: s2 :: rest))).squeeze.data
          (idx.drop 1)⟩, ?_, ?_, ?_⟩
    · simp only [read_data_page, ← hst]
      rw [if_pos (by rw [hsh, h1]; rfl)]
      have hsq : (applySlices ⟨s0 :: s1 :: s2 :: rest, raw⟩
            (buildSlices f t st none (s0 :: s1 :: s2 :: rest))).squeeze.shape
          = [s2] := by
        simp only [NDArray.squeeze, hsh, h1]
        simp [List.filter, hs2ne, hrest0]
      rw [hsq]
      simp
    · simp [h1]
    · rfl
  · refine ⟨(applySlices ⟨s0 :: s1 :: s2 :: rest, raw⟩
        (buildSlices f t st none (s0 :: s1 :: s2 :: rest))).squeeze, ?_, ?_, ?_⟩
    · simp only [read_data_page, ← hst]
      rw [if_neg (by rw [hsh]; simpa using h1)]
    · simp only [NDArray.squeeze, hsh]
      have htlne : (tl != 1) = true := by
        simp only [bne_iff_ne, ne_eq]
        exact h1
      simp [List.filter, htlne, hs2ne, hrest0]
    · simp only [NDArray.squeeze, hsh]
      have htlne : (tl != 1) = true := by
        simp only [bne_iff_ne, ne_eq]
        exact h1
      simp [List.filter, htlne, hs2ne, hrest0]

/-- Witness for the amended C1: backing shape `(3, 2, 3)`, single-timestep
request — the page comes back with shape `(1, 3)`. -/
theorem read_data_page_rank2_amended_witness :
    (read_data_page [3, 2, 3] (fun _ => 0) 0 1 none none).map NDArray.shape
      = some [1, 3] := by
  obtain ⟨a, ha, hsh, _⟩ := read_data_page_rank2_amended 3 2 3 []
    (fun _ => 0) 0 1 none (by decide) (by decide) (by simp)
  rw [ha]
  simp [hsh]

/-- The running maximum of a fold is at least its initial value. -/
theorem init_le_foldl_max (xs : List ℚ) (a : ℚ) : a ≤ xs.foldl max a := by
  induction xs generalizing a with
  | nil => simp
  | cons x xs ih => exact le_trans (le_max_left a x) (ih (max a x))

/-- Every element of the list is at most the fold of `max` over it. -/
theorem mem_le_foldl_max (xs : List ℚ) (a : ℚ) : ∀ x ∈ xs, x ≤ xs.foldl max a := by
  induction xs generalizing a with
  | nil => simp
  | cons w xs ih =>
    intro x hx
    rcases List.mem_cons.mp hx with rfl | hx
    · exact le_trans (le_max_right a x) (init_le_foldl_max xs (max a x))
    · exact ih (max a w) x hx

/-- The running minimum of a fold is at most its initial value. -/
theorem foldl_min_le_init (xs : List ℚ) (a : ℚ) : xs.foldl min a ≤ a := by
  induction xs generalizing a with
  | nil => simp
  | cons x xs ih => exact le_trans (ih (min a x)) (min_le_left a x)

/-- The fold of `min` over a list is at most every element. -/
theorem foldl_min_le_mem (xs : List ℚ) (a : ℚ) : ∀ x ∈ xs, xs.foldl min a ≤ x := by
  induction xs generalizing a with
  | nil => simp
  | cons w xs ih =>
    intro x hx
    rcases List.mem_cons.mp hx with rfl | hx
    · exact le_trans (foldl_min_le_init xs (min a x)) (min_le_right a x)
    · exact ih (min a w) x hx

/-- Python `max` bounds every element of the sequence from above. -/
theorem le_pyMax (l : List ℚ) : ∀ x ∈ l, x ≤ pyMax l := by
  cases l with
  | nil => simp
  | cons a xs =>
    intro x hx
    rcases List.mem_cons.mp hx with rfl | hx
    · exact init_le_foldl_max xs x
    · exact mem_le_foldl_max xs a x hx

/-- Python `min` bounds every element of the sequence from below. -/
theorem pyMin_le (l : List ℚ) : ∀ x ∈ l, pyMin l ≤ x := by
  cases l with
  | nil => simp
  | cons a xs =>
    intro x hx
    rcases List.mem_cons.mp hx with rfl | hx
    · exact foldl_min_le_init xs x
    · exact foldl_min_le_mem xs a x hx

/-- The mean of a non-empty list is at most its maximum. -/
theorem npMean_le_pyMax (l : List ℚ) (h : l ≠ []) : npMean l ≤ pyMax l := by
  have hlen : 0 < (l.length : ℚ) := by
    have := List.length_pos.mpr h
    exact_mod_cast this
  have hsum : l.sum ≤ l.length • pyMax l := List.sum_le_card_nsmul l _ (le_pyMax l)
  rw [nsmul_eq_mul] at hsum
  rw [npMean, div_le_iff hlen]
  linarith [hsum]

/-- The mean of a non-empty list is at least its minimum. -/
theorem pyMin_le_npMean (l : List ℚ) (h : l ≠ []) : pyMin l ≤ npMean l := by
  have hlen : 0 < (l.length : ℚ) := by
    have := List.length_pos.mpr h
    exact_mod_cast this
  have hsum : l.length • pyMin l ≤ l.sum := List.card_nsmul_le_sum l _ (pyMin_le l)
  rw [nsmul_eq_mul] at hsum
  rw [npMean, le_div_iff hlen]
  linarith [hsum]

/-- Any in-range position of the ascending sort is an element of the original
list. -/
theorem sorted_getD_mem (l : List ℚ) (i : ℕ)
    (hi : i < (l.insertionSort (· ≤ ·)).length) :
    (l.insertionSort (· ≤ ·)).getD i 0 ∈ l := by
  rw [List.getD_eq_getElem _ _ hi]
  exact (List.perm_insertionSort (· ≤ ·) l).mem_iff.mp (List.getElem_mem hi)

/-- The numpy median of a non-empty list lies between its minimum and its
maximum. -/
theorem npMedian_bounds (l : List ℚ) (h : l ≠ []) :
    pyMin l ≤ npMedian l ∧ npMedian l ≤ pyMax l := by
  have hn : 0 < l.length := List.length_pos.mpr h
  have hslen : (l.insertionSort (· ≤ ·)).length = l.length :=
    (List.perm_insertionSort (· ≤ ·) l).length_eq
  rw [npMedian]
  by_cases hodd : l.length % 2 = 1
  · rw [if_pos hodd]
    have hi : l.length / 2 < (l.insertionSort (· ≤ ·)).length := by
      rw [hslen]; omega
    have hmem := sorted_getD_mem l (l.length / 2) hi
    exact ⟨pyMin_le l _ hmem, le_pyMax l _ hmem⟩
  · rw [if_neg hodd]
    have h2 : 2 ≤ l.length := by omega
    have hi1 : l.length / 2 - 1 < (l.insertionSort (· ≤ ·)).length := by
      rw [hslen]; omega
    have hi2 : l.length / 2 < (l.insertionSort (· ≤ ·)).length := by
      rw [hslen]; omega
    have hm1 := sorted_getD_mem l (l.length / 2 - 1) hi1
    have hm2 := sorted_getD_mem l (l.length / 2) hi2
    constructor
    · have a1 := pyMin_le l _ hm1
      have a2 := pyMin_le l _ hm2
      linarith
    · have a1 := le_pyMax l _ hm1
      have a2 := le_pyMax l _ hm2
      linarith

/-- The numpy population variance is nonnegative. -/
theorem npVar_nonneg (l : List ℚ) : 0 ≤ npVar l := by
  rw [npVar]
  apply div_nonneg
  · apply List.sum_nonneg
    intro x hx
    obtain ⟨y, _, rfl⟩ := List.mem_map.mp hx
    positivity
  · positivity

/-- Claim C6: for every voxel that passes bounds validation and whose
extracted time course is non-empty, `get_voxel_time_series` returns the raw
values together with their `max`, `min`, `mean`, `median` and `variance`,
and the statistics satisfy `min ≤ mean ≤ max`, `min ≤ median ≤ max` and
`variance ≥ 0`.  (The returned `deviation = sqrt(variance)` is not part of
the rational model; see `VoxelResult`.) -/
theorem get_voxel_time_series_stats (shape : List ℕ) (raw : List ℕ → ℚ)
    (x y z : ℤ) (r : VoxelResult)
    (hok : get_voxel_time_series shape raw x y z = .ok r) :
    r.data ≠ []
    ∧ r.max = pyMax r.data ∧ r.min = pyMin r.data ∧ r.mean = npMean r.data
    ∧ r.median = npMedian r.data ∧ r.variance = npVar r.data
    ∧ r.min ≤ r.mean ∧ r.mean ≤ r.max
    ∧ r.min ≤ r.median ∧ r.median ≤ r.max
    ∧ 0 ≤ r.variance := by
  simp only [get_voxel_time_series] at hok
  split at hok
  · exact absurd hok (by simp)
  · split at hok
    · exact absurd hok (by simp)
    · rename_i b heq
      split at hok
      · exact absurd hok (by simp)
      · rename_i hemp
        have hr : r = ⟨b.toFlatList, pyMax b.toFlatList, pyMin b.toFlatList,
            npMean b.toFlatList, npMedian b.toFlatList, npVar b.toFlatList⟩ := by
          cases hok
          rfl
        subst hr
        have hne : b.toFlatList ≠ [] := by
          intro hcon
          rw [hcon] at hemp
          simp at hemp
        have hmed := npMedian_bounds b.toFlatList hne
        exact ⟨hne, rfl, rfl, rfl, rfl, rfl,
          pyMin_le_npMean _ hne, npMean_le_pyMax _ hne,
          hmed.1, hmed.2, npVar_nonneg _⟩

/-- Witness for C6: a `(2, 2, 2, 2)` volume holding 3 at time 0 and 7 at
time 1; voxel `(0, 0, 0)` yields the course `[3, 7]` and the stat
inequalities hold there. -/
theorem get_voxel_time_series_stats_witness :
    get_voxel_time_series [2, 2, 2, 2]
        (fun idx => if idx.headD 0 = 0 then 3 else 7) 0 0 0
      = .ok ⟨[3, 7], pyMax [3, 7], pyMin [3, 7], npMean [3, 7],
          npMedian [3, 7], npVar [3, 7]⟩
    ∧ pyMin [3, 7] ≤ npMean [3, 7] ∧ npMean [3, 7] ≤ pyMax [3, 7]
    ∧ pyMax [3, 7] = 7 ∧ pyMin [3, 7] = 3 := by
  have hok : get_voxel_time_series [2, 2, 2, 2]
      (fun idx => if idx.headD 0 = 0 then 3 else 7) 0 0 0
      = .ok ⟨[3, 7], pyMax [3, 7], pyMin [3, 7], npMean [3, 7],
          npMedian [3, 7], npVar [3, 7]⟩ := by rfl
  have h := get_voxel_time_series_stats [2, 2, 2, 2]
    (fun idx => if idx.headD 0 = 0 then 3 else 7) 0 0 0
    ⟨[3, 7], pyMax [3, 7], pyMin [3, 7], npMean [3, 7],
      npMedian [3, 7], npVar [3, 7]⟩ hok
  exact ⟨hok, h.2.2.2.2.2.2.1, h.2.2.2.2.2.2.2.1, rfl, rfl⟩

/-- Modelled from the spec's words for claim C7: identical to
`read_channels_page` except that the channel selection is applied "over the
last axis of the result", i.e. fancy indexing at axis `rank - 1` of the page
instead of the source's fixed axis 1. -/
def read_channels_page_lastaxis (shape : List ℕ) (raw : List ℕ → ℚ)
    (from_idx to_idx : ℕ) (step? : Option ℕ) (specific : Option (List ℕ))
    (channels : List ℕ) : Option NDArray :=
  match read_data_page shape raw from_idx to_idx step? specific with
  | none => none
  | some page =>
    if page.shape.length = 1 then
      some ⟨[page.shape.headD 0, 1], fun idx => page.data [idx.headD 0]⟩
    else if channels.isEmpty then some page
    else fancyIndexAxis (page.shape.length - 1) page channels

/-- Counterexample to claim C7 as stated: on backing shape `(3, 5, 4, 2)`
with `specific_slices = [0, 0, 0, 9]` (axis 3 clamps to an empty selection,
so the squeezed page has rank 3 with shape `(3, 4, 0)`), selecting channel 1
succeeds in the source — `data_page[:, (1,)]` indexes axis 1, of length 4 —
giving shape `(3, 1, 0)`, whereas applying the selection "over the last
axis" (length 0) would fail with `IndexError`.  The selection is applied
over axis 1, not over the last axis. -/
theorem read_channels_page_lastaxis_counterexample :
    (read_channels_page [3, 5, 4, 2] (fun _ => 0) 0 3 none
        (some [0, 0, 0, 9]) [1]).map NDArray.shape = some [3, 1, 0]
    ∧ read_channels_page_lastaxis [3, 5, 4, 2] (fun _ => 0) 0 3 none
        (some [0, 0, 0, 9]) [1] = none := by
  exact ⟨rfl, rfl⟩

/-- Claim C7 (amended): `read_channels_page` first runs the slice builder
(`read_data_page`), propagating its failure; if the page result is 1-D it is
reshaped to a column vector of shape `(N, 1)` and returned with no channel
filtering; otherwise an empty channel selection returns the page unchanged
and a non-empty selection (decoded from its textual form) is applied over
axis 1 of the result — which is the last axis whenever the page is 2-D, the
shape the slice builder produces in the non-degenerate cases. -/
theorem read_channels_page_amended (shape : List ℕ) (raw : List ℕ → ℚ)
    (f t : ℕ) (step? : Option ℕ) (specific : Option (List ℕ)) (cs : List ℕ) :
    (read_data_page shape raw f t step? specific = none →
      read_channels_page shape raw f t step? specific cs = none)
    ∧ (∀ page, read_data_page shape raw f t step? specific = some page →
        (page.shape.length = 1 →
          read_channels_page shape raw f t step? specific cs
            = some ⟨[page.shape.headD 0, 1], fun idx => page.data [idx.headD 0]⟩)
        ∧ (page.shape.length ≠ 1 → cs = [] →
          read_channels_page shape raw f t step? specific cs = some page)
        ∧ (page.shape.length ≠ 1 → cs ≠ [] →
          read_channels_page shape raw f t step? specific cs
            = fancyIndexAxis 1 page cs)
        ∧ (page.shape.length = 2 → cs ≠ [] →
          read_channels_page_lastaxis shape raw f t step? specific cs
            = read_channels_page shape raw f t step? specific cs)) := by
  constructor
  · intro h
    simp [read_channels_page, h]
  · intro page hp
    have hcs : cs ≠ [] → cs.isEmpty = false := by
      intro h
      cases cs
      · exact absurd rfl h
      · rfl
    refine ⟨?_, ?_, ?_, ?_⟩
    · intro h1
      simp [read_channels_page, hp, h1]
    · intro h1 hc
      subst hc
      simp [read_channels_page, hp, h1]
    · intro h1 hc
      simp [read_channels_page, hp, h1, hcs hc]
    · intro h2 hc
      have h1 : page.shape.length ≠ 1 := by omega
      simp only [read_channels_page, read_channels_page_lastaxis, hp, h1,
        if_false, hcs hc, h2]

/-- Witness for the amended C7: backing shape `(2, 1, 3)` gives a rank-2 page
of shape `(2, 3)`; selecting channels `[2, 0]` over axis 1 yields shape
`(2, 2)`. -/
theorem read_channels_page_amended_witness :
    (read_channels_page [2, 1, 3] (fun _ => 0) 0 2 none none [2, 0]).map
      NDArray.shape = some [2, 2] := by
  have h := (read_channels_page_amended [2, 1, 3] (fun _ => 0) 0 2 none none
    [2, 0]).2
  rcases hp : read_data_page [2, 1, 3] (fun _ => 0) 0 2 none none with _ | page
  · have : (read_data_page [2, 1, 3] (fun _ => 0) 0 2 none none).map
        NDArray.shape = some [2, 3] := rfl
    rw [hp] at this
    simp at this
  · have hsh : page.shape = [2, 3] := by
      have : (read_data_page [2, 1, 3] (fun _ => 0) 0 2 none none).map
          NDArray.shape = some [2, 3] := rfl
      rw [hp] at this
      simpa using this
    have hrank : page.shape.length ≠ 1 := by rw [hsh]; decide
    have hc := (h page hp).2.2.1 hrank (by decide)
    rw [hc]
    simp [fancyIndexAxis, hsh]
